import Mathlib

/-!
Shallow embedding of `src/main.py` (`class DataUnifier`), the data-unification
pipeline: per-record format detection, normalization of two record shapes to a
canonical schema, and a final stable sort of the output by timestamp.

Modelling conventions:
* Python runtime values that can occur in this program's records are the
  inductive `Value` (JSON-style scalars and string-keyed mappings).
* A Python dict is an association list with distinct keys; `pyGet` is `d.get(k)`
  and `pyGetD` is `d.get(k, default)`.
* Python machine behavior is made explicit: `bool` passes an
  `isinstance(x, (int, float))` check because `bool` subclasses `int`;
  `list.sort(key=...)` first computes every key and then sorts stably,
  raising `TypeError` as soon as it compares an incomparable pair of keys.
* Fallible Python code (statements that can raise) is translated into
  `Except String`, the error string naming the exception.
* `datetime.timestamp()` on a naive datetime depends on the host timezone; the
  host timezone is the explicit parameter `hostTz`, giving the UTC offset in
  seconds for a naive local epoch estimate.  It is consulted only on the naive
  branch.  Arithmetic is exact (CPython goes through binary floating point,
  which agrees on the magnitudes exercised here).
-/

/-- Python runtime values occurring in this program's records. -/
inductive Value where
  | none
  | int (n : ℤ)
  | float (q : ℚ)
  | str (s : String)
  | bool (b : Bool)
  | dict (entries : List (String × Value))

/-- A Python dict with string keys, as the program's raw and canonical records. -/
abbrev Record := List (String × Value)

/-- `data.get(k)`: first binding of key `k`, if any. -/
def pyGet (data : Record) (k : String) : Option Value :=
  match data with
  | [] => Option.none
  | (k', v) :: rest => if k' = k then some v else pyGet rest k

/-- `data.get(k, dflt)`. -/
def pyGetD (data : Record) (k : String) (dflt : Value) : Value :=
  (pyGet data k).getD dflt

/-- `isinstance(v, (int, float))` — true also for `bool`, a subclass of `int`. -/
def isNumericInst : Value → Bool
  | .int _ => true
  | .float _ => true
  | .bool _ => true
  | _ => false

/-- `c in s` for a single character (Python substring test `"T" in s`). -/
def charsContain (c : Char) : List Char → Bool
  | [] => false
  | c' :: cs => if c' = c then true else charsContain c cs

/-- `s.__contains__(c)` on a Python string, single-character needle. -/
def strContainsChar (s : String) (c : Char) : Bool := charsContain c s.data

/-- `s.endswith(c)` for a single character. -/
def endsWithChar (c : Char) : List Char → Bool
  | [] => false
  | [c'] => if c' = c then true else false
  | _ :: c' :: cs => endsWithChar c (c' :: cs)

/-- The expression `data.get("timestamp", data.get("time", ""))` shared by
`detect_data_format` and `normalize_data_format_2`. -/
def tsField (data : Record) : Value :=
  pyGetD data "timestamp" (pyGetD data "time" (.str ""))

/-- `DataUnifier.detect_data_format`: read the timestamp-bearing value (key
`"timestamp"`, falling back to `"time"`, defaulting to `""`); numeric values
give `"format_1"`, strings containing `'T'` or `'Z'` give `"format_2"`, and
everything else defaults to `"format_1"`. -/
def detect_data_format (data : Record) : String :=
  let timestamp := tsField data
  if isNumericInst timestamp then "format_1"
  else
    match timestamp with
    | .str s =>
        if strContainsChar s 'T' || strContainsChar s 'Z' then "format_2" else "format_1"
    | _ => "format_1"

/-- `DataUnifier.normalize_data_format_1`: field extraction with defaults; the
timestamp value is passed through verbatim (`data.get("timestamp")`, which is
Python `None` when the key is absent). -/
def normalize_data_format_1 (data : Record) : Record :=
  [("timestamp", (pyGet data "timestamp").getD Value.none),
   ("message", pyGetD data "message" (.str "")),
   ("value", pyGetD data "value" (.int 0)),
   ("source", .str "format_1"),
   ("metadata", pyGetD data "metadata" (.dict []))]

/-- Read exactly `n` decimal digits, most significant first. -/
def readDigits : ℕ → ℕ → List Char → Option (ℕ × List Char)
  | 0, acc, cs => some (acc, cs)
  | n + 1, acc, c :: cs =>
      if c.isDigit then readDigits n (acc * 10 + (c.toNat - 48)) cs else Option.none
  | _ + 1, _, [] => Option.none

/-- Consume one expected character. -/
def expectChar (c : Char) : List Char → Option (List Char)
  | c' :: cs => if c' = c then some cs else Option.none
  | [] => Option.none

/-- Longest digit prefix and the remainder. -/
def spanDigits : List Char → List Char × List Char
  | [] => ([], [])
  | c :: cs =>
    if c.isDigit then
      let (d, r) := spanDigits cs
      (c :: d, r)
    else ([], c :: cs)

/-- Numeric value of a digit string. -/
def digitsVal (ds : List Char) : ℕ := ds.foldl (fun a c => a * 10 + (c.toNat - 48)) 0

/-- Trailing UTC-offset component `±HH:MM[:SS]` of an ISO string (which must end
after it); `some Option.none` when the input is empty (no offset given). -/
def parseOffset : List Char → Option (Option ℤ)
  | [] => some Option.none
  | c :: cs =>
    if c = '+' || c = '-' then
      match readDigits 2 0 cs with
      | some (hh, rest) =>
        match expectChar ':' rest with
        | some rest2 =>
          match readDigits 2 0 rest2 with
          | some (mm, rest3) =>
            if hh ≤ 23 && mm ≤ 59 then
              let sign : ℤ := if c = '-' then -1 else 1
              match rest3 with
              | [] => some (some (sign * (hh * 3600 + mm * 60)))
              | ':' :: r4 =>
                match readDigits 2 0 r4 with
                | some (ss, []) =>
                  if ss ≤ 59 then some (some (sign * (hh * 3600 + mm * 60 + ss)))
                  else Option.none
                | _ => Option.none
              | _ => Option.none
            else Option.none
          | Option.none => Option.none
        | Option.none => Option.none
      | Option.none => Option.none
    else Option.none

/-- Result of `datetime.fromisoformat`: civil date-time components plus the
explicit UTC offset in seconds, when one was written. -/
structure ParsedDT where
  year : ℕ
  month : ℕ
  day : ℕ
  hour : ℕ
  minute : ℕ
  second : ℕ
  micros : ℕ
  utcOffsetSecs : Option ℤ

/-- Gregorian leap-year rule. -/
def isLeapYear (y : ℕ) : Bool := y % 4 == 0 && (y % 100 != 0 || y % 400 == 0)

/-- Length of a month, as validated by `datetime`. -/
def daysInMonth (y : ℕ) (m : ℕ) : ℕ :=
  if m = 2 then (if isLeapYear y then 29 else 28)
  else if m = 4 || m = 6 || m = 9 || m = 11 then 30 else 31

/-- Time-of-day part `HH[:MM[:SS[.f{1,6}]]]` followed by an optional offset. -/
def parseHMS (cs : List Char) : Option (ℕ × ℕ × ℕ × ℕ × Option ℤ) := do
  let (hh, r1) ← readDigits 2 0 cs
  if hh ≥ 24 then Option.none else
  match r1 with
  | ':' :: r2 => do
    let (mi, r3) ← readDigits 2 0 r2
    if mi ≥ 60 then Option.none else
    match r3 with
    | ':' :: r4 => do
      let (ss, r5) ← readDigits 2 0 r4
      if ss ≥ 60 then Option.none else
      match r5 with
      | '.' :: r6 =>
        let (ds, r7) := spanDigits r6
        if ds.length = 0 ∨ ds.length > 6 then Option.none else do
        let off ← parseOffset r7
        pure (hh, mi, ss, digitsVal ds * 10 ^ (6 - ds.length), off)
      | _ => do
        let off ← parseOffset r5
        pure (hh, mi, ss, 0, off)
    | _ => do
      let off ← parseOffset r3
      pure (hh, mi, 0, 0, off)
  | _ => do
    let off ← parseOffset r1
    pure (hh, 0, 0, 0, off)

/-- `datetime.fromisoformat` on the character list: `YYYY-MM-DD`, optionally a
single separator character and a time-of-day with optional fraction and
optional explicit UTC offset.  Dates are range-validated. -/
def parseIsoChars (cs : List Char) : Option ParsedDT := do
  let (y, r1) ← readDigits 4 0 cs
  let r2 ← expectChar '-' r1
  let (mo, r3) ← readDigits 2 0 r2
  let r4 ← expectChar '-' r3
  let (d, r5) ← readDigits 2 0 r4
  if y = 0 ∨ mo = 0 ∨ mo > 12 ∨ d = 0 ∨ d > daysInMonth y mo then Option.none else
  match r5 with
  | [] => some ⟨y, mo, d, 0, 0, 0, 0, Option.none⟩
  | _sep :: r6 => do
    let (hh, mi, ss, micros, off) ← parseHMS r6
    pure ⟨y, mo, d, hh, mi, ss, micros, off⟩

/-- `datetime.fromisoformat` on a string. -/
def fromisoformat (s : String) : Option ParsedDT := parseIsoChars s.data

/-- Days between 1970-01-01 and a civil date (proleptic Gregorian calendar). -/
def daysFromCivil (y : ℕ) (m : ℕ) (d : ℕ) : ℤ :=
  let yAdj : ℤ := if m ≤ 2 then (y : ℤ) - 1 else (y : ℤ)
  let era : ℤ := Int.fdiv yAdj 400
  let yoe : ℤ := yAdj - era * 400
  let mp : ℤ := if m > 2 then (m : ℤ) - 3 else (m : ℤ) + 9
  let doy : ℤ := (153 * mp + 2) / 5 + (d : ℤ) - 1
  let doe : ℤ := yoe * 365 + yoe / 4 - yoe / 100 + doy
  era * 146097 + doe - 719468

/-- `int(dt.timestamp() * 1000)`: epoch seconds of the parsed point in time
(using the explicit offset when present, otherwise the host timezone `hostTz`),
times 1000, truncated toward zero. -/
def dtToMillis (hostTz : ℤ → ℤ) (dt : ParsedDT) : ℤ :=
  let naiveSecs : ℤ := daysFromCivil dt.year dt.month dt.day * 86400
    + dt.hour * 3600 + dt.minute * 60 + dt.second
  let epochSecs : ℤ :=
    match dt.utcOffsetSecs with
    | some off => naiveSecs - off
    | Option.none => naiveSecs - hostTz naiveSecs
  Int.tdiv (epochSecs * 1000000 + dt.micros) 1000

/-- `DataUnifier.iso_to_milliseconds`: strip one trailing `'Z'`, parse with
`fromisoformat`, convert to epoch milliseconds; on a parse failure re-raise
`ValueError` naming the (stripped) offending literal, exactly as the source's
`except ValueError` handler does. -/
def iso_to_milliseconds (hostTz : ℤ → ℤ) (iso_timestamp : String) : Except String ℤ :=
  let trimmed := if endsWithChar 'Z' iso_timestamp.data
    then iso_timestamp.data.dropLast else iso_timestamp.data
  match parseIsoChars trimmed with
  | some dt => Except.ok (dtToMillis hostTz dt)
  | Option.none =>
      Except.error ("ValueError: Invalid ISO timestamp format: " ++ String.mk trimmed)

/-- `DataUnifier.normalize_data_format_2`: read the timestamp-bearing value with
the `timestamp`/`time` fallback, convert it with `iso_to_milliseconds`
(a non-string value raises before `fromisoformat` is reached, since Python would
call `.endswith` on it), then build the canonical record with
`message`/`msg`, `value`/`val`, `metadata`/`meta` fallbacks. -/
def normalize_data_format_2 (hostTz : ℤ → ℤ) (data : Record) : Except String Record :=
  let iso_timestamp := tsField data
  match iso_timestamp with
  | Value.str s =>
    match iso_to_milliseconds hostTz s with
    | Except.ok millisecond_timestamp =>
        Except.ok
          [("timestamp", Value.int millisecond_timestamp),
           ("message", pyGetD data "message" (pyGetD data "msg" (.str ""))),
           ("value", pyGetD data "value" (pyGetD data "val" (.int 0))),
           ("source", Value.str "format_2"),
           ("metadata", pyGetD data "metadata" (pyGetD data "meta" (.dict [])))]
    | Except.error e => Except.error e
  | _ => Except.error "AttributeError: timestamp value has no attribute endswith"

/-- The `try` body of one iteration of `DataUnifier.unify_data`'s loop:
detect the format, then normalize accordingly. -/
def processEntry (hostTz : ℤ → ℤ) (data_entry : Record) : Except String Record :=
  let format_type := detect_data_format data_entry
  if format_type = "format_1" then Except.ok (normalize_data_format_1 data_entry)
  else normalize_data_format_2 hostTz data_entry

/-- The record loop of `DataUnifier.unify_data`: each entry is processed inside
`try ... except Exception: continue`, so failing entries are skipped and
successful ones are appended in order. -/
def unify_loop (hostTz : ℤ → ℤ) : List Record → List Record
  | [] => []
  | data_entry :: rest =>
    match processEntry hostTz data_entry with
    | Except.ok normalized => normalized :: unify_loop hostTz rest
    | Except.error _ => unify_loop hostTz rest

/-- Numeric view used by Python `<` (ints, floats and bools compare on one
number line, `True` counting as 1 and `False` as 0). -/
def numVal : Value → Option ℚ
  | .int n => some (n : ℚ)
  | .float q => some q
  | .bool b => some (if b then 1 else 0)
  | _ => Option.none

/-- Python `a < b` on the value kinds this program can place in a `timestamp`
field: numbers compare numerically, strings lexicographically, and every other
combination (`None`, dicts, or mixed string/number) raises `TypeError`. -/
def pyLt (a b : Value) : Except String Bool :=
  match numVal a, numVal b with
  | some x, some y => Except.ok (decide (x < y))
  | _, _ =>
    match a, b with
    | .str s, .str t => Except.ok (decide (s < t))
    | _, _ => Except.error "TypeError: unsupported comparison for sort"

/-- One stable-insertion step of `list.sort`: the accumulated prefix is sorted,
and the incoming (later) element is placed after every element whose key is not
greater than its own, comparing with `pyLt` on keys. -/
def insertSorted (x : Value × Record) :
    List (Value × Record) → Except String (List (Value × Record))
  | [] => Except.ok [x]
  | y :: ys =>
    match pyLt x.1 y.1 with
    | Except.error e => Except.error e
    | Except.ok lt =>
      if lt then Except.ok (x :: y :: ys)
      else
        match insertSorted x ys with
        | Except.error e => Except.error e
        | Except.ok r => Except.ok (y :: r)

/-- Stable sort of key-decorated elements by repeated insertion, in input
order. -/
def sortLoop (acc : List (Value × Record)) :
    List (Value × Record) → Except String (List (Value × Record))
  | [] => Except.ok acc
  | x :: xs =>
    match insertSorted x acc with
    | Except.error e => Except.error e
    | Except.ok acc2 => sortLoop acc2 xs

/-- The key-computation pass of `list.sort(key=...)`: `x["timestamp"]` is
evaluated for every element in list order, raising `KeyError` at the first
element missing the key. -/
def decorate : List Record → Except String (List (Value × Record))
  | [] => Except.ok []
  | r :: rs =>
    match pyGet r "timestamp" with
    | Option.none => Except.error "KeyError: timestamp"
    | some v =>
      match decorate rs with
      | Except.error e => Except.error e
      | Except.ok rest => Except.ok ((v, r) :: rest)

/-- `unified_results.sort(key=lambda x: x["timestamp"])`: CPython first computes
the key of every element, then sorts stably ascending, raising `TypeError` on
the first comparison of an incomparable key pair.  This statement sits outside
the per-record `try`/`except`. -/
def pySortByTimestamp (l : List Record) : Except String (List Record) :=
  match decorate l with
  | Except.error e => Except.error e
  | Except.ok keyed =>
    match sortLoop [] keyed with
    | Except.error e => Except.error e
    | Except.ok sorted => Except.ok (sorted.map Prod.snd)

/-- `DataUnifier.unify_data`: run the per-record loop, then sort the collected
results by timestamp.  A failure of the sort itself is not caught anywhere in
the method, so it propagates to the caller. -/
def unify_data (hostTz : ℤ → ℤ) (data_list : List Record) : Except String (List Record) :=
  pySortByTimestamp (unify_loop hostTz data_list)

/-- Instance state of `class DataUnifier`: `__init__` stores one attribute. -/
structure DataUnifier where
  unified_data : List Record

/-- `DataUnifier()`. -/
def DataUnifier.init : DataUnifier := ⟨[]⟩

/-- The method call `self.unify_data(data_list)`: the body never reads or
writes `self.unified_data`, so the instance passes through unchanged and the
result is a function of the arguments alone. -/
def DataUnifier.call_unify_data (self : DataUnifier) (hostTz : ℤ → ℤ)
    (data_list : List Record) : DataUnifier × Except String (List Record) :=
  (self, unify_data hostTz data_list)

/-!
Auxiliary notions used to state and prove properties of the embedding.
-/

/-- A fixed "host timezone is UTC" instantiation, used for concrete runs. -/
def tzZero : ℤ → ℤ := fun _ => 0

/-- A fixed "host timezone is UTC+1" instantiation, used for concrete runs. -/
def tzPlusOne : ℤ → ℤ := fun _ => 3600

/-- Pure stable insertion on integer-keyed pairs (integer comparisons cannot
raise, so the `Except` layer disappears). -/
def insertI (x : ℤ × Record) : List (ℤ × Record) → List (ℤ × Record)
  | [] => [x]
  | y :: ys => if x.1 < y.1 then x :: y :: ys else y :: insertI x ys

/-- Pure counterpart of `sortLoop` on integer-keyed pairs. -/
def sortI (acc : List (ℤ × Record)) : List (ℤ × Record) → List (ℤ × Record)
  | [] => acc
  | x :: xs => sortI (insertI x acc) xs

/-- Integer-keyed pairs viewed as `Value`-keyed pairs. -/
def intKeyed (l : List (ℤ × Record)) : List (Value × Record) :=
  l.map (fun p => (Value.int p.1, p.2))

/-- Both records carry integer timestamps and the first is not larger. -/
def tsLE (r1 r2 : Record) : Prop :=
  ∃ a b : ℤ, pyGet r1 "timestamp" = some (Value.int a) ∧
    pyGet r2 "timestamp" = some (Value.int b) ∧ a ≤ b

/-- Both records carry integer timestamps and the first is strictly smaller. -/
def tsLT (r1 r2 : Record) : Prop :=
  ∃ a b : ℤ, pyGet r1 "timestamp" = some (Value.int a) ∧
    pyGet r2 "timestamp" = some (Value.int b) ∧ a < b

/-- The record's timestamp field holds exactly the integer `k`. -/
def hasTs (k : ℤ) (r : Record) : Bool :=
  match pyGet r "timestamp" with
  | some (Value.int n) => decide (n = k)
  | _ => false

/-- The pair's key is exactly `k`. -/
def keyIs (k : ℤ) (p : ℤ × Record) : Bool := decide (p.1 = k)

/-- Key-wise ordering of decorated pairs. -/
def KeyLE (p q : ℤ × Record) : Prop := p.1 ≤ q.1

/-- A record in the canonical output shape: exactly the five canonical fields
in canonical order, with an integer timestamp. -/
def canonical (t : ℤ) (m v s md : Value) : Record :=
  [("timestamp", Value.int t), ("message", m), ("value", v),
   ("source", s), ("metadata", md)]

/-- The record is canonical-shaped. -/
def IsCanonShaped (r : Record) : Prop :=
  ∃ t m v s md, r = canonical t m v s md

/-- Re-tag the `source` field of a record to `"format_1"`, leaving everything
else unchanged. -/
def retag1 (r : Record) : Record :=
  r.map (fun kv => if kv.1 = "source" then (kv.1, Value.str "format_1") else kv)

/-- Drop every binding of key `k`. -/
def eraseKey (r : Record) (k : String) : Record :=
  r.filter (fun kv => if kv.1 = k then false else true)

/-- After stripping one trailing `'Z'`, the text parses and carries an explicit
UTC offset. -/
def hasExplicitOffset (iso_timestamp : String) : Bool :=
  let trimmed := if endsWithChar 'Z' iso_timestamp.data
    then iso_timestamp.data.dropLast else iso_timestamp.data
  match parseIsoChars trimmed with
  | some dt => dt.utcOffsetSecs.isSome
  | Option.none => false

/-!
Lemmas about the sort layer: on integer keys the fallible Python sort agrees
with the pure stable insertion sort `sortI`, which is sorted, stable and a
permutation of its input.
-/

theorem pyLt_int (a b : ℤ) :
    pyLt (Value.int a) (Value.int b) = Except.ok (decide (a < b)) := by
  show Except.ok (decide ((a : ℚ) < (b : ℚ))) = Except.ok (decide (a < b))
  rw [decide_eq_decide.mpr Int.cast_lt]

theorem insertSorted_int (x : ℤ × Record) (l : List (ℤ × Record)) :
    insertSorted (Value.int x.1, x.2) (intKeyed l) = Except.ok (intKeyed (insertI x l)) := by
  induction l with
  | nil => rfl
  | cons y ys ih =>
    simp only [intKeyed, List.map_cons, insertSorted, insertI, pyLt_int]
    by_cases h : x.1 < y.1
    · simp [h, intKeyed]
    · simp only [intKeyed] at ih
      simp [h, ih, intKeyed]

theorem sortLoop_int (l : List (ℤ × Record)) :
    ∀ acc : List (ℤ × Record),
      sortLoop (intKeyed acc) (intKeyed l) = Except.ok (intKeyed (sortI acc l)) := by
  induction l with
  | nil => intro acc; rfl
  | cons x xs ih =>
    intro acc
    simp only [intKeyed, List.map_cons, sortLoop, sortI]
    have h := insertSorted_int x acc
    simp only [intKeyed] at h
    simp only [h]
    have h2 := ih (insertI x acc)
    simp only [intKeyed] at h2
    exact h2

theorem insertI_perm (x : ℤ × Record) (l : List (ℤ × Record)) :
    List.Perm (insertI x l) (x :: l) := by
  induction l with
  | nil => exact List.Perm.refl _
  | cons y ys ih =>
    simp only [insertI]
    by_cases h : x.1 < y.1
    · rw [if_pos h]
    · rw [if_neg h]
      exact (ih.cons y).trans (List.Perm.swap x y ys)

theorem sortI_perm (l : List (ℤ × Record)) :
    ∀ acc, List.Perm (sortI acc l) (acc ++ l) := by
  induction l with
  | nil => intro acc; simp [sortI]
  | cons x xs ih =>
    intro acc
    simp only [sortI]
    refine (ih (insertI x acc)).trans ?_
    refine (List.Perm.append_right xs (insertI_perm x acc)).trans ?_
    exact List.perm_middle.symm

theorem insertI_pairwise {l : List (ℤ × Record)} (hl : l.Pairwise KeyLE) (x : ℤ × Record) :
    (insertI x l).Pairwise KeyLE := by
  induction l with
  | nil => simp [insertI, KeyLE]
  | cons y ys ih =>
    rcases List.pairwise_cons.mp hl with ⟨hy, hys⟩
    simp only [insertI]
    by_cases h : x.1 < y.1
    · rw [if_pos h]
      refine List.pairwise_cons.mpr ⟨?_, hl⟩
      intro z hz
      rcases List.mem_cons.mp hz with rfl | hz'
      · exact le_of_lt h
      · exact le_of_lt (lt_of_lt_of_le h (hy z hz'))
    · rw [if_neg h]
      refine List.pairwise_cons.mpr ⟨?_, ih hys⟩
      intro z hz
      rcases List.mem_cons.mp ((insertI_perm x ys).mem_iff.mp hz) with rfl | hz'
      · exact le_of_not_lt h
      · exact hy z hz'

theorem sortI_pairwise (l : List (ℤ × Record)) :
    ∀ acc, acc.Pairwise KeyLE → (sortI acc l).Pairwise KeyLE := by
  induction l with
  | nil => intro acc h; exact h
  | cons x xs ih =>
    intro acc h
    exact ih (insertI x acc) (insertI_pairwise h x)

theorem insertI_filter {l : List (ℤ × Record)} (hl : l.Pairwise KeyLE)
    (x : ℤ × Record) (k : ℤ) :
    (insertI x l).filter (keyIs k) =
      l.filter (keyIs k) ++ (if keyIs k x then [x] else []) := by
  induction l with
  | nil => by_cases h : keyIs k x <;> simp [insertI, h]
  | cons y ys ih =>
    rcases List.pairwise_cons.mp hl with ⟨hy, hys⟩
    simp only [insertI]
    by_cases h : x.1 < y.1
    · rw [if_pos h]
      by_cases hx : keyIs k x
      · have hk : x.1 = k := of_decide_eq_true hx
        have hnil : (y :: ys).filter (keyIs k) = [] := by
          rw [List.filter_eq_nil_iff]
          intro z hz
          have hzk : k < z.1 := by
            rcases List.mem_cons.mp hz with rfl | hz'
            · omega
            · have := hy z hz'
              simp only [KeyLE] at this
              omega
          simp [keyIs]
          omega
        rw [List.filter_cons_of_pos hx, hnil]
        simp [hx]
      · have hxf : keyIs k x = false := by simpa using hx
        rw [List.filter_cons_of_neg (by simp [hxf])]
        simp [hxf]
    · rw [if_neg h]
      rw [List.filter_cons, List.filter_cons, ih hys]
      by_cases hy2 : keyIs k y <;> simp [hy2]

theorem sortI_filter (l : List (ℤ × Record)) :
    ∀ acc, acc.Pairwise KeyLE → ∀ k,
      (sortI acc l).filter (keyIs k) = acc.filter (keyIs k) ++ l.filter (keyIs k) := by
  induction l with
  | nil => intro acc _ k; simp [sortI]
  | cons x xs ih =>
    intro acc hacc k
    simp only [sortI]
    rw [ih (insertI x acc) (insertI_pairwise hacc x) k, insertI_filter hacc x k,
      List.filter_cons]
    by_cases hx : keyIs k x <;> simp [hx]

theorem insertI_append (x : ℤ × Record) :
    ∀ acc : List (ℤ × Record), (∀ y ∈ acc, ¬ x.1 < y.1) → insertI x acc = acc ++ [x]
  | [], _ => rfl
  | y :: ys, h => by
    simp only [insertI]
    rw [if_neg (h y (List.mem_cons_self y ys))]
    rw [insertI_append x ys (fun z hz => h z (List.mem_cons_of_mem y hz))]
    simp

theorem sortI_eq_of_sorted (l : List (ℤ × Record)) :
    ∀ acc, (∀ y ∈ acc, ∀ z ∈ l, y.1 ≤ z.1) → l.Pairwise KeyLE →
      sortI acc l = acc ++ l := by
  induction l with
  | nil => intro acc _ _; simp [sortI]
  | cons x xs ih =>
    intro acc hcross hl
    rcases List.pairwise_cons.mp hl with ⟨hx, hxs⟩
    simp only [sortI]
    rw [insertI_append x acc
      (fun y hy => not_lt.mpr (hcross y hy x (List.mem_cons_self x xs)))]
    have hcross2 : ∀ y ∈ acc ++ [x], ∀ z ∈ xs, y.1 ≤ z.1 := by
      intro y hy z hz
      rcases List.mem_append.mp hy with hy' | hy'
      · exact hcross y hy' z (List.mem_cons_of_mem x hz)
      · rcases List.mem_singleton.mp hy' with rfl
        exact hx z hz
    rw [ih (acc ++ [x]) hcross2 hxs, List.append_assoc]
    rfl

theorem intKeyed_map_snd (m : List (ℤ × Record)) :
    (intKeyed m).map Prod.snd = m.map Prod.snd := by
  induction m with
  | nil => rfl
  | cons a as ih => simp only [intKeyed, List.map_cons] at *; rw [ih]

theorem decorate_ok_int :
    ∀ L : List Record,
      (∀ r ∈ L, ∃ n : ℤ, pyGet r "timestamp" = some (Value.int n)) →
      ∃ kl : List (ℤ × Record),
        decorate L = Except.ok (intKeyed kl) ∧ kl.map Prod.snd = L ∧
        ∀ p ∈ kl, pyGet p.2 "timestamp" = some (Value.int p.1)
  | [], _ => ⟨[], rfl, rfl, by simp⟩
  | r :: rs, H => by
    obtain ⟨n, hn⟩ := H r (List.mem_cons_self r rs)
    obtain ⟨kl, h1, h2, h3⟩ :=
      decorate_ok_int rs (fun x hx => H x (List.mem_cons_of_mem r hx))
    refine ⟨(n, r) :: kl, ?_, ?_, ?_⟩
    · simp only [decorate, hn, h1]
      rfl
    · simp [h2]
    · intro p hp
      rcases List.mem_cons.mp hp with rfl | hp'
      · exact hn
      · exact h3 p hp'

/-- Core lemma: when every record collected by the loop carries an integer
timestamp, the final sort succeeds, preserves length, yields a collection
sorted non-decreasingly by timestamp, and is stable (for each timestamp value
the subsequence of records carrying it is unchanged). -/
theorem unify_data_ok_of_int
    (hostTz : ℤ → ℤ) (l : List Record)
    (H : ∀ r ∈ unify_loop hostTz l, ∃ n : ℤ, pyGet r "timestamp" = some (Value.int n)) :
    ∃ out : List Record,
      unify_data hostTz l = Except.ok out ∧
      out.length = (unify_loop hostTz l).length ∧
      List.Pairwise tsLE out ∧
      ∀ k : ℤ, out.filter (hasTs k) = (unify_loop hostTz l).filter (hasTs k) := by
  obtain ⟨kl, hdec, hmap, hinv⟩ := decorate_ok_int (unify_loop hostTz l) H
  have hsort := sortLoop_int kl []
  rw [show intKeyed [] = ([] : List (Value × Record)) from rfl] at hsort
  have hmem : ∀ p ∈ sortI [] kl, pyGet p.2 "timestamp" = some (Value.int p.1) := by
    intro p hp'
    exact hinv p (by simpa using (sortI_perm kl []).mem_iff.mp hp')
  refine ⟨(sortI [] kl).map Prod.snd, ?_, ?_, ?_, ?_⟩
  · unfold unify_data pySortByTimestamp
    simp only [hdec, hsort, intKeyed_map_snd]
  · rw [List.length_map, (sortI_perm kl []).length_eq, List.nil_append, ← hmap,
      List.length_map]
  · rw [List.pairwise_map]
    refine (sortI_pairwise kl [] List.Pairwise.nil).imp_of_mem ?_
    intro a b ha hb hab
    exact ⟨a.1, b.1, hmem a ha, hmem b hb, hab⟩
  · intro k
    have e1 : ((sortI [] kl).map Prod.snd).filter (hasTs k) =
        ((sortI [] kl).filter (keyIs k)).map Prod.snd := by
      rw [List.filter_map]
      congr 1
      apply List.filter_congr
      intro p hp'
      have hinvp := hmem p hp'
      simp [hasTs, keyIs, hinvp, Function.comp]
    have e2 : (kl.map Prod.snd).filter (hasTs k) = (kl.filter (keyIs k)).map Prod.snd := by
      rw [List.filter_map]
      congr 1
      apply List.filter_congr
      intro p hp'
      have hinvp := hinv p hp'
      simp [hasTs, keyIs, hinvp, Function.comp]
    rw [e1, sortI_filter kl [] List.Pairwise.nil k, List.filter_nil, List.nil_append,
      ← e2, hmap]

theorem unify_loop_append (hostTz : ℤ → ℤ) :
    ∀ a b : List Record,
      unify_loop hostTz (a ++ b) = unify_loop hostTz a ++ unify_loop hostTz b
  | [], _ => rfl
  | e :: a, b => by
    simp only [List.cons_append, unify_loop]
    cases hpe : processEntry hostTz e with
    | ok n => simp [unify_loop_append hostTz a b]
    | error err => simp [unify_loop_append hostTz a b]

/-!
Bridge lemmas about the classifier and the format-1 normalizer.
-/

theorem detect_eq_aux (data : Record) :
    detect_data_format data =
      (if isNumericInst (tsField data) then "format_1"
       else
         match tsField data with
         | Value.str s =>
             if strContainsChar s 'T' || strContainsChar s 'Z' then "format_2"
             else "format_1"
         | _ => "format_1") := rfl

theorem normalize1_get_ts (data : Record) :
    pyGet (normalize_data_format_1 data) "timestamp" =
      some ((pyGet data "timestamp").getD Value.none) := rfl

theorem tsField_of_ts {data : Record} {v : Value}
    (h : pyGet data "timestamp" = some v) : tsField data = v := by
  simp [tsField, pyGetD, h]

theorem pyGet_eraseKey (k k' : String) (hne : k' ≠ k) :
    ∀ r : Record, pyGet (eraseKey r k) k' = pyGet r k'
  | [] => rfl
  | (k0, v0) :: rest => by
    by_cases h : k0 = k
    · have h2 : ¬ k0 = k' := fun hh => hne (hh ▸ h)
      have e1 : eraseKey ((k0, v0) :: rest) k = eraseKey rest k := by
        simp [eraseKey, List.filter_cons, h]
      rw [e1, pyGet_eraseKey k k' hne rest]
      simp [pyGet, h2]
    · have e1 : eraseKey ((k0, v0) :: rest) k = (k0, v0) :: eraseKey rest k := by
        simp [eraseKey, List.filter_cons, h]
      rw [e1]
      by_cases h3 : k0 = k'
      · simp [pyGet, h3]
      · simp [pyGet, h3]
        exact pyGet_eraseKey k k' hne rest

/-- C3: for numeric timestamp inputs (integer or float) the pipeline's
timestamp normalization is the identity: the classifier routes the record to
format 1, whose normalizer passes the numeric value through unchanged (the
numeric branch of the spec's Timestamp Normalizer is realized by this
pass-through; `iso_to_milliseconds` is reached only on the textual branch). -/
theorem numeric_timestamp_identity (data : Record) :
    (∀ n : ℤ, pyGet data "timestamp" = some (Value.int n) →
      detect_data_format data = "format_1" ∧
      pyGet (normalize_data_format_1 data) "timestamp" = some (Value.int n)) ∧
    (∀ q : ℚ, pyGet data "timestamp" = some (Value.float q) →
      detect_data_format data = "format_1" ∧
      pyGet (normalize_data_format_1 data) "timestamp" = some (Value.float q)) := by
  constructor
  · intro n h
    refine ⟨?_, ?_⟩
    · rw [detect_eq_aux, tsField_of_ts h]
      rfl
    · rw [normalize1_get_ts, h]
      rfl
  · intro q h
    refine ⟨?_, ?_⟩
    · rw [detect_eq_aux, tsField_of_ts h]
      rfl
    · rw [normalize1_get_ts, h]
      rfl

/-- C3 witness: a record with integer timestamp 1000 is classified format 1
and keeps timestamp 1000. -/
theorem numeric_timestamp_identity_witness :
    detect_data_format [("timestamp", Value.int 1000)] = "format_1" ∧
    pyGet (normalize_data_format_1 [("timestamp", Value.int 1000)]) "timestamp" =
      some (Value.int 1000) :=
  (numeric_timestamp_identity [("timestamp", Value.int 1000)]).1 1000 rfl

/-- C4: the classifier is total (always returns one of the two tags), reads
the timestamp-bearing field as `timestamp`-then-`time`-then-empty-string, maps
numeric values to format 1, strings containing `'T'` or `'Z'` to format 2, and
everything else to format 1. -/
theorem detect_total_and_spec (data : Record) :
    (detect_data_format data = "format_1" ∨ detect_data_format data = "format_2") ∧
    tsField data = (pyGet data "timestamp").getD ((pyGet data "time").getD (Value.str "")) ∧
    (isNumericInst (tsField data) = true → detect_data_format data = "format_1") ∧
    (∀ s, tsField data = Value.str s →
      (strContainsChar s 'T' || strContainsChar s 'Z') = true →
      detect_data_format data = "format_2") ∧
    (∀ s, tsField data = Value.str s →
      (strContainsChar s 'T' || strContainsChar s 'Z') = false →
      detect_data_format data = "format_1") ∧
    (isNumericInst (tsField data) = false → (∀ s, tsField data ≠ Value.str s) →
      detect_data_format data = "format_1") := by
  refine ⟨?_, rfl, ?_, ?_, ?_, ?_⟩
  · rw [detect_eq_aux]
    cases hv : tsField data with
    | none => simp [isNumericInst]
    | int n => simp [isNumericInst]
    | float q => simp [isNumericInst]
    | bool b => simp [isNumericInst]
    | dict d => simp [isNumericInst]
    | str s =>
      by_cases hc : strContainsChar s 'T' || strContainsChar s 'Z'
      · right; simp [isNumericInst, hc]
      · left; simp [isNumericInst, hc]
  · intro hnum
    rw [detect_eq_aux, if_pos hnum]
  · intro s hs hc
    rw [detect_eq_aux, hs]
    simp [isNumericInst, hc]
  · intro s hs hc
    rw [detect_eq_aux, hs]
    simp [isNumericInst, hc]
  · intro hnum hnstr
    rw [detect_eq_aux]
    cases hv : tsField data with
    | none => simp [isNumericInst]
    | int n => simp [isNumericInst]
    | float q => simp [isNumericInst]
    | bool b => simp [isNumericInst]
    | dict d => simp [isNumericInst]
    | str s => exact absurd hv (hnstr s)

/-- C4 witness: the empty mapping classifies as format 1 via the
empty-string default. -/
theorem detect_total_and_spec_witness :
    detect_data_format ([] : Record) = "format_1" :=
  (detect_total_and_spec ([] : Record)).2.2.2.2.1 "" rfl rfl

/-- C7: on textual timestamps that (after stripping one trailing `'Z'`) parse
with an explicit UTC offset, `iso_to_milliseconds` does not consult the host
timezone: runs under any two host timezone settings return the same result. -/
theorem iso_offset_tz_independent (s : String) (tz1 tz2 : ℤ → ℤ)
    (h : hasExplicitOffset s = true) :
    iso_to_milliseconds tz1 s = iso_to_milliseconds tz2 s := by
  simp only [hasExplicitOffset] at h
  simp only [iso_to_milliseconds]
  cases hp : parseIsoChars (if endsWithChar 'Z' s.data then s.data.dropLast else s.data) with
  | none => rw [hp] at h
  | some dt =>
    rw [hp] at h
    have h2 : dt.utcOffsetSecs.isSome = true := h
    obtain ⟨off, hoff⟩ := Option.isSome_iff_exists.mp h2
    simp [dtToMillis, hoff]

/-- C7 witness: an offset-carrying literal gives the same milliseconds under a
UTC host and a UTC+1 host. -/
theorem iso_offset_tz_independent_witness :
    iso_to_milliseconds tzZero "2023-10-15T14:30:45.123+05:00" =
      iso_to_milliseconds tzPlusOne "2023-10-15T14:30:45.123+05:00" :=
  iso_offset_tz_independent "2023-10-15T14:30:45.123+05:00" tzZero tzPlusOne rfl

/-- C8: a call of the `unify_data` method leaves the instance state unchanged,
its result does not depend on the instance state, and a repeated call on the
same input returns the same output (the embedding is pure, reflecting that the
source builds new dicts and never assigns into its inputs). -/
theorem unify_data_stateless (st st' : DataUnifier) (hostTz : ℤ → ℤ) (l : List Record) :
    (DataUnifier.call_unify_data st hostTz l).1 = st ∧
    (DataUnifier.call_unify_data st hostTz l).2 =
      (DataUnifier.call_unify_data st' hostTz l).2 ∧
    (DataUnifier.call_unify_data (DataUnifier.call_unify_data st hostTz l).1 hostTz l).2 =
      (DataUnifier.call_unify_data st hostTz l).2 :=
  ⟨rfl, rfl, rfl⟩

/-- C9: a record with a numeric value under `time` (any value passing the
`isinstance(x, (int, float))` test: integer, float or boolean) and no
`timestamp` key is classified format 1 through the fallback read, but the
format-1 normalizer reads only `timestamp`: the canonical record's timestamp
is `None` and the record normalizes exactly as if the `time` binding were
absent. -/
theorem time_fallback_value_discarded (data : Record) (v : Value)
    (h1 : pyGet data "timestamp" = Option.none)
    (h2 : pyGet data "time" = some v)
    (hnum : isNumericInst v = true) :
    detect_data_format data = "format_1" ∧
    pyGet (normalize_data_format_1 data) "timestamp" = some Value.none ∧
    normalize_data_format_1 data = normalize_data_format_1 (eraseKey data "time") := by
  have ht : tsField data = v := by simp [tsField, pyGetD, h1, h2]
  refine ⟨?_, ?_, ?_⟩
  · rw [detect_eq_aux, ht, if_pos hnum]
  · rw [normalize1_get_ts, h1]
    rfl
  · simp only [normalize_data_format_1, pyGetD,
      pyGet_eraseKey "time" "timestamp" (by decide) data,
      pyGet_eraseKey "time" "message" (by decide) data,
      pyGet_eraseKey "time" "value" (by decide) data,
      pyGet_eraseKey "time" "metadata" (by decide) data]

/-- C9 witness at the record `[("time", 0.5)]` (a float-valued `time`). -/
theorem time_fallback_value_discarded_witness :
    detect_data_format [("time", Value.float (1 / 2))] = "format_1" ∧
    pyGet (normalize_data_format_1 [("time", Value.float (1 / 2))]) "timestamp" =
      some Value.none ∧
    normalize_data_format_1 [("time", Value.float (1 / 2))] =
      normalize_data_format_1 (eraseKey [("time", Value.float (1 / 2))] "time") :=
  time_fallback_value_discarded [("time", Value.float (1 / 2))] (Value.float (1 / 2))
    rfl rfl rfl

/-- C10: a boolean timestamp value satisfies the numeric `isinstance` test
(`bool` subclasses `int`), so the record is classified format 1 and the
boolean is passed through verbatim as the canonical timestamp. -/
theorem bool_timestamp_passthrough (data : Record) (b : Bool)
    (h : pyGet data "timestamp" = some (Value.bool b)) :
    detect_data_format data = "format_1" ∧
    pyGet (normalize_data_format_1 data) "timestamp" = some (Value.bool b) := by
  refine ⟨?_, ?_⟩
  · rw [detect_eq_aux, tsField_of_ts h]
    rfl
  · rw [normalize1_get_ts, h]
    rfl

/-- C10 witness at the record `[("timestamp", True)]`. -/
theorem bool_timestamp_passthrough_witness :
    detect_data_format [("timestamp", Value.bool true)] = "format_1" ∧
    pyGet (normalize_data_format_1 [("timestamp", Value.bool true)]) "timestamp" =
      some (Value.bool true) :=
  bool_timestamp_passthrough [("timestamp", Value.bool true)] true rfl

/-- C1 counterexample: a record whose unparsable non-`T`/`Z` timestamp string
is passed through as a string timestamp makes the final (uncaught) sort compare
a string against an integer, so `unify_data` itself raises `TypeError`. -/
theorem unify_raises_on_incomparable_cex :
    unify_data tzZero
      [[("timestamp", Value.str "not-a-date")], [("timestamp", Value.int 5)]] =
      Except.error "TypeError: unsupported comparison for sort" := rfl

/-- C1 (amended): any failure raised while classifying or normalizing a record
is caught and that record is skipped, processing continuing with the rest; a
record with a non-`T`/`Z` string timestamp passes through normalization without
raising; and when every successfully normalized record carries an integer
timestamp, `unify_data` returns without raising.  (As stated the claim fails:
the final sort is outside the per-record handler and raises `TypeError` on
incomparable normalized timestamps.) -/
theorem unify_skip_and_passthrough (hostTz : ℤ → ℤ) (entry : Record) (rest : List Record) :
    (∀ e : String, processEntry hostTz entry = Except.error e →
      unify_loop hostTz (entry :: rest) = unify_loop hostTz rest) ∧
    (∀ s : String, tsField entry = Value.str s →
      strContainsChar s 'T' = false → strContainsChar s 'Z' = false →
      unify_loop hostTz (entry :: rest) =
        normalize_data_format_1 entry :: unify_loop hostTz rest) ∧
    ((∀ r ∈ unify_loop hostTz (entry :: rest),
        ∃ n : ℤ, pyGet r "timestamp" = some (Value.int n)) →
      ∃ out, unify_data hostTz (entry :: rest) = Except.ok out) := by
  refine ⟨?_, ?_, ?_⟩
  · intro e he
    simp [unify_loop, he]
  · intro s hs hT hZ
    have hdet : detect_data_format entry = "format_1" := by
      rw [detect_eq_aux, hs]
      simp [isNumericInst, hT, hZ]
    simp [unify_loop, processEntry, hdet]
  · intro H
    obtain ⟨out, ho, _⟩ := unify_data_ok_of_int hostTz (entry :: rest) H
    exact ⟨out, ho⟩

/-- C1 witness: the record with timestamp `"not-a-date"` is passed through by
the loop without being skipped. -/
theorem unify_skip_and_passthrough_witness :
    unify_loop tzZero [[("timestamp", Value.str "not-a-date")]] =
      [normalize_data_format_1 [("timestamp", Value.str "not-a-date")]] :=
  (unify_skip_and_passthrough tzZero [("timestamp", Value.str "not-a-date")] []).2.1
    "not-a-date" rfl rfl rfl

/-- C2 counterexample: the empty mapping normalizes successfully with
timestamp `None`, so the output contains a canonical record whose timestamp is
null rather than an integer. -/
theorem unify_null_timestamp_cex :
    unify_data tzZero [[]] =
      Except.ok [[("timestamp", Value.none), ("message", Value.str ""),
        ("value", Value.int 0), ("source", Value.str "format_1"),
        ("metadata", Value.dict [])]] := rfl

/-- C2 (amended): when every record collected by the loop carries an integer
timestamp, `unify_data` succeeds and its output is sorted non-decreasingly by
timestamp, is stable (for every timestamp value, the subsequence of records
carrying it equals that of the successfully normalized records in first-seen
order), and has one record per successfully normalized input.  (As stated the
claim fails: format-1 passes timestamps through verbatim, so an output record's
timestamp can be null or non-integer.) -/
theorem unify_sorted_stable_of_int (hostTz : ℤ → ℤ) (l : List Record)
    (H : ∀ r ∈ unify_loop hostTz l, ∃ n : ℤ, pyGet r "timestamp" = some (Value.int n)) :
    ∃ out : List Record,
      unify_data hostTz l = Except.ok out ∧
      List.Pairwise tsLE out ∧
      (∀ k : ℤ, out.filter (hasTs k) = (unify_loop hostTz l).filter (hasTs k)) ∧
      out.length = (unify_loop hostTz l).length := by
  obtain ⟨out, h1, h2, h3, h4⟩ := unify_data_ok_of_int hostTz l H
  exact ⟨out, h1, h3, h4, h2⟩

/-- C2 witness: two integer-timestamped records sort successfully. -/
theorem unify_sorted_stable_of_int_witness :
    ∃ out : List Record,
      unify_data tzZero [[("timestamp", Value.int 2)], [("timestamp", Value.int 1)]] =
        Except.ok out ∧
      List.Pairwise tsLE out ∧
      (∀ k : ℤ, out.filter (hasTs k) =
        (unify_loop tzZero [[("timestamp", Value.int 2)], [("timestamp", Value.int 1)]]).filter
          (hasTs k)) ∧
      out.length =
        (unify_loop tzZero [[("timestamp", Value.int 2)], [("timestamp", Value.int 1)]]).length :=
  unify_sorted_stable_of_int tzZero [[("timestamp", Value.int 2)], [("timestamp", Value.int 1)]]
    (by
      intro x hx
      have e : unify_loop tzZero [[("timestamp", Value.int 2)], [("timestamp", Value.int 1)]] =
          [normalize_data_format_1 [("timestamp", Value.int 2)],
           normalize_data_format_1 [("timestamp", Value.int 1)]] := rfl
      rw [e] at hx
      rcases List.mem_cons.mp hx with rfl | hx2
      · exact ⟨2, rfl⟩
      · rcases List.mem_cons.mp hx2 with rfl | hx3
        · exact ⟨1, rfl⟩
        · exact absurd hx3 (List.not_mem_nil x))

/-- C5 counterexample: with the bad-`T` record first and two other records
that normalize successfully (to null timestamps), `unify_data` raises
`TypeError` in the final sort instead of returning input-count-minus-one
records. -/
theorem bad_textual_skip_cex :
    unify_data tzZero [[("timestamp", Value.str "2023-10-15Tbad")], [], []] =
      Except.error "TypeError: unsupported comparison for sort" := rfl

/-- C5 (amended): if exactly one record carries a `'T'`-containing string
timestamp that fails `iso_to_milliseconds` while every other record normalizes
successfully to an integer timestamp, then that record alone is skipped and
the output has exactly one record fewer than the input.  (As stated the claim
fails: other "successfully normalized" records may carry null timestamps, on
which the final sort raises instead of returning a shorter collection.) -/
theorem unify_count_minus_one (hostTz : ℤ → ℤ) (l1 l2 : List Record)
    (r : Record) (s : String) (e : String)
    (hts : tsField r = Value.str s)
    (hT : strContainsChar s 'T' = true)
    (hbad : iso_to_milliseconds hostTz s = Except.error e)
    (hlen : (unify_loop hostTz (l1 ++ l2)).length = (l1 ++ l2).length)
    (hint : ∀ x ∈ unify_loop hostTz (l1 ++ l2),
      ∃ n : ℤ, pyGet x "timestamp" = some (Value.int n)) :
    ∃ out, unify_data hostTz (l1 ++ r :: l2) = Except.ok out ∧
      out.length + 1 = (l1 ++ r :: l2).length := by
  have hdet : detect_data_format r = "format_2" := by
    rw [detect_eq_aux, hts]
    simp [isNumericInst, hT]
  have hpe : processEntry hostTz r = Except.error e := by
    unfold processEntry
    rw [hdet, if_neg (by decide)]
    simp only [normalize_data_format_2, hts, hbad]
  have hloop : unify_loop hostTz (l1 ++ r :: l2) = unify_loop hostTz (l1 ++ l2) := by
    rw [unify_loop_append, unify_loop_append]
    congr 1
    simp [unify_loop, hpe]
  obtain ⟨out, h1, h2, _, _⟩ :=
    unify_data_ok_of_int hostTz (l1 ++ r :: l2) (by rw [hloop]; exact hint)
  refine ⟨out, h1, ?_⟩
  rw [h2, hloop, hlen]
  simp [List.length_append]
  omega

/-- C5 witness: the record with timestamp `"2023-10-15Tbad"` between two
integer-timestamped records is the only one dropped. -/
theorem unify_count_minus_one_witness :
    ∃ out, unify_data tzZero
        [[("timestamp", Value.int 3)], [("timestamp", Value.str "2023-10-15Tbad")],
         [("timestamp", Value.int 1)]] = Except.ok out ∧
      out.length + 1 =
        ([[("timestamp", Value.int 3)], [("timestamp", Value.str "2023-10-15Tbad")],
          [("timestamp", Value.int 1)]] : List Record).length :=
  unify_count_minus_one tzZero [[("timestamp", Value.int 3)]] [[("timestamp", Value.int 1)]]
    [("timestamp", Value.str "2023-10-15Tbad")] "2023-10-15Tbad"
    "ValueError: Invalid ISO timestamp format: 2023-10-15Tbad"
    rfl rfl rfl rfl
    (by
      intro x hx
      have e2 : unify_loop tzZero ([[("timestamp", Value.int 3)]] ++ [[("timestamp", Value.int 1)]]) =
          [normalize_data_format_1 [("timestamp", Value.int 3)],
           normalize_data_format_1 [("timestamp", Value.int 1)]] := rfl
      rw [e2] at hx
      rcases List.mem_cons.mp hx with rfl | hx2
      · exact ⟨3, rfl⟩
      · rcases List.mem_cons.mp hx2 with rfl | hx3
        · exact ⟨1, rfl⟩
        · exact absurd hx3 (List.not_mem_nil x))

/-!
Lemmas about canonical-shaped records, for the idempotence claim.
-/

theorem pyGet_canonical_ts (t : ℤ) (m v s md : Value) :
    pyGet (canonical t m v s md) "timestamp" = some (Value.int t) := rfl

theorem retag1_canonical (t : ℤ) (m v s md : Value) :
    retag1 (canonical t m v s md) = canonical t m v (Value.str "format_1") md := rfl

theorem processEntry_canonical (hostTz : ℤ → ℤ) (t : ℤ) (m v s md : Value) :
    processEntry hostTz (canonical t m v s md) =
      Except.ok (canonical t m v (Value.str "format_1") md) := rfl

theorem retag1_idem (r : Record) : retag1 (retag1 r) = retag1 r := by
  unfold retag1
  rw [List.map_map]
  apply List.map_congr_left
  intro kv _
  by_cases h : kv.1 = "source"
  · simp [Function.comp, h]
  · simp [Function.comp, h]

theorem unify_loop_canonical (hostTz : ℤ → ℤ) :
    ∀ l : List Record, (∀ r ∈ l, IsCanonShaped r) →
      unify_loop hostTz l = l.map retag1
  | [], _ => rfl
  | r :: rest, hc => by
    obtain ⟨t, m, v, s, md, rfl⟩ := hc r (List.mem_cons_self r rest)
    simp only [unify_loop, processEntry_canonical, List.map_cons, retag1_canonical]
    rw [unify_loop_canonical hostTz rest (fun x hx => hc x (List.mem_cons_of_mem _ hx))]

theorem retag1_pairwise_tsLT {l : List Record} (hc : ∀ r ∈ l, IsCanonShaped r)
    (hs : l.Pairwise tsLT) : (l.map retag1).Pairwise tsLT := by
  rw [List.pairwise_map]
  refine hs.imp_of_mem ?_
  intro a b ha hb hab
  obtain ⟨x, y, hx, hy, hxy⟩ := hab
  obtain ⟨t, m, v, s, md, rfl⟩ := hc a ha
  obtain ⟨t', m', v', s', md', rfl⟩ := hc b hb
  refine ⟨x, y, ?_, ?_, hxy⟩
  · rw [retag1_canonical]
    exact (pyGet_canonical_ts t m v (Value.str "format_1") md).trans
      ((pyGet_canonical_ts t m v s md).symm.trans hx)
  · rw [retag1_canonical]
    exact (pyGet_canonical_ts t' m' v' (Value.str "format_1") md').trans
      ((pyGet_canonical_ts t' m' v' s' md').symm.trans hy)

theorem unify_canonical_sorted (hostTz : ℤ → ℤ) (l : List Record)
    (hc : ∀ r ∈ l, IsCanonShaped r) (hs : l.Pairwise tsLT) :
    unify_data hostTz l = Except.ok (l.map retag1) := by
  have hloop := unify_loop_canonical hostTz l hc
  have hint : ∀ x ∈ unify_loop hostTz l,
      ∃ n : ℤ, pyGet x "timestamp" = some (Value.int n) := by
    rw [hloop]
    intro x hx
    obtain ⟨r0, hr0, rfl⟩ := List.mem_map.mp hx
    obtain ⟨t, m, v, s, md, rfl⟩ := hc r0 hr0
    rw [retag1_canonical]
    exact ⟨t, pyGet_canonical_ts t m v (Value.str "format_1") md⟩
  obtain ⟨kl, hdec, hmap, hinv⟩ := decorate_ok_int _ hint
  have hpair2 : (kl.map Prod.snd).Pairwise tsLT := by
    rw [hmap, hloop]
    exact retag1_pairwise_tsLT hc hs
  have hklsorted : kl.Pairwise KeyLE := by
    refine (List.pairwise_map.mp hpair2).imp_of_mem ?_
    intro p q hp hq hpq
    obtain ⟨a, b, hpa, hqb, hab⟩ := hpq
    have e1 : p.1 = a := by
      have h0 := (hinv p hp).symm.trans hpa
      simp only [Option.some.injEq, Value.int.injEq] at h0
      exact h0
    have e2 : q.1 = b := by
      have h0 := (hinv q hq).symm.trans hqb
      simp only [Option.some.injEq, Value.int.injEq] at h0
      exact h0
    show p.1 ≤ q.1
    rw [e1, e2]
    exact le_of_lt hab
  have hid : sortI [] kl = kl := by
    have h0 := sortI_eq_of_sorted kl []
      (by intro y hy z hz; exact absurd hy (List.not_mem_nil y)) hklsorted
    simpa using h0
  have hsort := sortLoop_int kl []
  rw [show intKeyed ([] : List (ℤ × Record)) = ([] : List (Value × Record)) from rfl,
    hid] at hsort
  unfold unify_data pySortByTimestamp
  simp only [hdec, hsort, intKeyed_map_snd]
  rw [hmap, hloop]

/-- C6: on an already canonical-shaped input list, sorted with strictly
increasing integer timestamps, `unify_data` returns the same list except that
every record's `source` field is re-tagged to `"format_1"`, and applying
`unify_data` again leaves that result unchanged. -/
theorem unify_idempotent_canonical (hostTz : ℤ → ℤ) (l : List Record)
    (hc : ∀ r ∈ l, IsCanonShaped r) (hs : l.Pairwise tsLT) :
    unify_data hostTz l = Except.ok (l.map retag1) ∧
    unify_data hostTz (l.map retag1) = Except.ok (l.map retag1) := by
  have hc2 : ∀ r ∈ l.map retag1, IsCanonShaped r := by
    intro r hr
    obtain ⟨r0, hr0, rfl⟩ := List.mem_map.mp hr
    obtain ⟨t, m, v, s, md, rfl⟩ := hc r0 hr0
    exact ⟨t, m, v, Value.str "format_1", md, retag1_canonical t m v s md⟩
  have h2 := unify_canonical_sorted hostTz (l.map retag1) hc2 (retag1_pairwise_tsLT hc hs)
  have hmm : (l.map retag1).map retag1 = l.map retag1 := by
    rw [List.map_map]
    exact List.map_congr_left (fun a _ => retag1_idem a)
  exact ⟨unify_canonical_sorted hostTz l hc hs, by rwa [hmm] at h2⟩

/-- C6 witness: two canonical records with timestamps 1 < 2. -/
theorem unify_idempotent_canonical_witness :
    unify_data tzZero
        [canonical 1 (Value.str "a") (Value.int 1) (Value.str "x") (Value.dict []),
         canonical 2 (Value.str "b") (Value.int 2) (Value.str "y") (Value.dict [])] =
      Except.ok
        (([canonical 1 (Value.str "a") (Value.int 1) (Value.str "x") (Value.dict []),
           canonical 2 (Value.str "b") (Value.int 2) (Value.str "y") (Value.dict [])]).map
          retag1) ∧
    unify_data tzZero
        (([canonical 1 (Value.str "a") (Value.int 1) (Value.str "x") (Value.dict []),
           canonical 2 (Value.str "b") (Value.int 2) (Value.str "y") (Value.dict [])]).map
          retag1) =
      Except.ok
        (([canonical 1 (Value.str "a") (Value.int 1) (Value.str "x") (Value.dict []),
           canonical 2 (Value.str "b") (Value.int 2) (Value.str "y") (Value.dict [])]).map
          retag1) :=
  unify_idempotent_canonical tzZero
    [canonical 1 (Value.str "a") (Value.int 1) (Value.str "x") (Value.dict []),
     canonical 2 (Value.str "b") (Value.int 2) (Value.str "y") (Value.dict [])]
    (by
      intro r hr
      rcases List.mem_cons.mp hr with rfl | hr2
      · exact ⟨1, Value.str "a", Value.int 1, Value.str "x", Value.dict [], rfl⟩
      · rcases List.mem_cons.mp hr2 with rfl | hr3
        · exact ⟨2, Value.str "b", Value.int 2, Value.str "y", Value.dict [], rfl⟩
        · exact absurd hr3 (List.not_mem_nil r))
    (by
      refine List.pairwise_cons.mpr ⟨?_, ?_⟩
      · intro b hb
        rcases List.mem_singleton.mp hb with rfl
        exact ⟨1, 2, rfl, rfl, by decide⟩
      · simp)
